import Mathlib

/-!
Verification development for the single-header B+tree library
(`include/bptree.h`).  The C code is shallowly embedded: C arrays inside a
node's flexible data region are modelled as total functions `Nat → _`
(every index is readable, matching C where reads beyond `num_keys` yield
whatever bytes are stored there), node key counters are modelled as `Nat`
(the C `int` counters are never negative on any path exercised here),
`size_t` arithmetic is carried out in `Nat` with an explicit `% 2 ^ 64`
where wrap-around matters, and keys/values are the built-in configuration
(`bptree_key_t = int64_t`, a numeric value type), modelled as `Int` with
the default numeric comparator `(*a < *b) ? -1 : ((*a > *b) ? 1 : 0)`.
-/

namespace BptreeModel

/-! ## Byte-array micro-operations

`upd` is a single element store; `shiftRightN` is
`memmove(&a[1], &a[0], n * sizeof _)`; `shiftLeftN` is
`memmove(&a[0], &a[1], n * sizeof _)`; `copyInto` is
`memcpy(dst + off, src, n * sizeof _)`; `removeAt` is the left shift
`memmove(&a[idx], &a[idx+1], len * sizeof _)` used when a parent drops a
separator or child slot. -/

def upd {α : Type} (a : Nat → α) (i : Nat) (v : α) : Nat → α :=
  fun j => if j = i then v else a j

def shiftRightN {α : Type} (a : Nat → α) (n : Nat) : Nat → α :=
  fun i => if 1 ≤ i ∧ i < n + 1 then a (i - 1) else a i

def shiftLeftN {α : Type} (a : Nat → α) (n : Nat) : Nat → α :=
  fun i => if i < n then a (i + 1) else a i

def copyInto {α : Type} (dst : Nat → α) (off : Nat) (src : Nat → α) (n : Nat) : Nat → α :=
  fun i => if off ≤ i ∧ i < off + n then src (i - off) else dst i

def removeAt {α : Type} (a : Nat → α) (idx len : Nat) : Nat → α :=
  fun i => if idx ≤ i ∧ i < idx + len then a (i + 1) else a i

/-! ## Status codes (`bptree_status`, bptree.h lines 72-79) -/

inductive bptree_status where
  | BPTREE_OK
  | BPTREE_DUPLICATE_KEY
  | BPTREE_KEY_NOT_FOUND
  | BPTREE_ALLOCATION_FAILURE
  | BPTREE_INVALID_ARGUMENT
  | BPTREE_INTERNAL_ERROR
deriving DecidableEq

/-! ## Node views used by the rebalancing code

A leaf node is viewed through its key/value arrays plus the `next` leaf
pointer (pointers are modelled as abstract identifiers). An internal node
is viewed through its key/child-pointer arrays; `none` is a NULL child. -/

structure LeafView where
  num : Nat
  keys : Nat → Int
  vals : Nat → Int
  next : Option Nat

structure IntView where
  num : Nat
  keys : Nat → Int
  child : Nat → Option Nat

/-- Outcome of one rebalancing sub-operation.  `fatalAbort` is the
`fprintf(stderr, ...); abort();` path taken by the merge code when a
combined key/child count would overflow the node buffer; `err` would be a
recoverable `bptree_status` result (the C code has no such path in
`bptree_rebalance_up`, the constructor exists so that its absence can be
stated). -/
inductive MergeRes (σ : Type) where
  | ok (s : σ)
  | fatalAbort
  | err (e : bptree_status)

/-! ## Borrow from the left sibling, leaf case
(`bptree_rebalance_up`, bptree.h lines 443-463)

```
memmove(&child_keys[1], &child_keys[0], child->num_keys * sizeof(bptree_key_t));
memmove(&child_vals[1], &child_vals[0], child->num_keys * sizeof(bptree_value_t));
child_keys[0] = left_keys[left_sibling->num_keys - 1];
child_vals[0] = left_keys[left_sibling->num_keys - 1];   // note: left_keys
child->num_keys++;
left_sibling->num_keys--;
parent_keys[child_idx - 1] = child_keys[0];
```
The embedding keeps the source's right-hand sides exactly, including that
`child_vals[0]` is assigned from `left_keys`. -/

def borrowLeafFromLeft (child left : LeafView) (parentKeys : Nat → Int)
    (childIdx : Nat) : LeafView × LeafView × (Nat → Int) :=
  let ck0 := shiftRightN child.keys child.num
  let cv0 := shiftRightN child.vals child.num
  let ck := upd ck0 0 (left.keys (left.num - 1))
  let cv := upd cv0 0 (left.keys (left.num - 1))
  let child' : LeafView := ⟨child.num + 1, ck, cv, child.next⟩
  let left' : LeafView := ⟨left.num - 1, left.keys, left.vals, left.next⟩
  let pk := upd parentKeys (childIdx - 1) (ck 0)
  (child', left', pk)

/-! ## Borrow from the right sibling, leaf case
(`bptree_rebalance_up`, bptree.h lines 496-517)

```
child_keys[child->num_keys] = right_keys[0];
child_vals[child->num_keys] = right_vals[0];
child->num_keys++;
right_sibling->num_keys++;      // source increments the donor's counter
memmove(&right_keys[0], &right_keys[1], right_sibling->num_keys * sizeof(bptree_key_t));
memmove(&right_vals[0], &right_vals[1], right_sibling->num_keys * sizeof(bptree_value_t));
parent_keys[child_idx] = right_keys[0];
```
The memmove length uses the already-updated counter, as in the source. -/

def borrowLeafFromRight (child right : LeafView) (parentKeys : Nat → Int)
    (childIdx : Nat) : LeafView × LeafView × (Nat → Int) :=
  let ck := upd child.keys child.num (right.keys 0)
  let cv := upd child.vals child.num (right.vals 0)
  let child' : LeafView := ⟨child.num + 1, ck, cv, child.next⟩
  let rnum := right.num + 1
  let rk := shiftLeftN right.keys rnum
  let rv := shiftLeftN right.vals rnum
  let right' : LeafView := ⟨rnum, rk, rv, right.next⟩
  let pk := upd parentKeys childIdx (rk 0)
  (child', right', pk)

/-! ## Merge into the left sibling, leaf case
(`bptree_rebalance_up`, bptree.h lines 548-567 and the shared parent
update at lines 602-605)

The overflow guard `combined_keys > tree->max_keys` runs before any copy
and ends the process (`abort`).  Otherwise keys/values of `child` are
appended to `left_sibling`, `left_sibling->next = child->next`, `child`
is freed, `children[child_idx]` is nulled, and the parent drops separator
`child_idx - 1` and child slot `child_idx`. -/

def mergeLeftLeaf (maxKeys : Nat) (left child : LeafView) (parent : IntView)
    (childIdx : Nat) : MergeRes (LeafView × IntView) :=
  let combined := left.num + child.num
  if combined > maxKeys then .fatalAbort
  else
    let lk := copyInto left.keys left.num child.keys child.num
    let lv := copyInto left.vals left.num child.vals child.num
    let left' : LeafView := ⟨combined, lk, lv, child.next⟩
    let pc0 := upd parent.child childIdx none
    let pk := removeAt parent.keys (childIdx - 1) (parent.num - childIdx)
    let pc := removeAt pc0 childIdx (parent.num - childIdx)
    let parent' : IntView := ⟨parent.num - 1, pk, pc⟩
    .ok (left', parent')

/-! ## Merge into the left sibling, internal case
(`bptree_rebalance_up`, bptree.h lines 568-606)

```
const int combined_keys = left_sibling->num_keys + 1 + child->num_keys;
const int combined_children = (left_sibling->num_keys + 1) + (child->num_keys + 1);
if (combined_keys > tree->max_keys) { ... abort; }
if (combined_children > tree->max_keys + 1) { ... abort; }
left_keys[left_sibling->num_keys] = parent_keys[child_idx - 1];
memcpy(left_keys + left_sibling->num_keys + 1, child_keys, child->num_keys * sizeof(bptree_key_t));
memcpy(left_children + left_sibling->num_keys + 1, child_children, (child->num_keys + 1) * sizeof(bptree_node*));
left_sibling->num_keys = combined_children;   // source assigns combined_children
free(child); children[child_idx] = NULL;
memmove(&parent_keys[child_idx - 1], &parent_keys[child_idx], (parent->num_keys - child_idx) * sizeof(bptree_key_t));
memmove(&children[child_idx], &children[child_idx + 1], (parent->num_keys - child_idx) * sizeof(bptree_node*));
parent->num_keys--;
```
The embedding keeps the source's counter update exactly
(`combined_children`, not `combined_keys`). -/

def mergeLeftInternal (maxKeys : Nat) (left child : IntView) (parent : IntView)
    (childIdx : Nat) : MergeRes (IntView × IntView) :=
  let combinedKeys := left.num + 1 + child.num
  let combinedChildren := (left.num + 1) + (child.num + 1)
  if combinedKeys > maxKeys then .fatalAbort
  else if combinedChildren > maxKeys + 1 then .fatalAbort
  else
    let lk0 := upd left.keys left.num (parent.keys (childIdx - 1))
    let lk := copyInto lk0 (left.num + 1) child.keys child.num
    let lc := copyInto left.child (left.num + 1) child.child (child.num + 1)
    let left' : IntView := ⟨combinedChildren, lk, lc⟩
    let pc0 := upd parent.child childIdx none
    let pk := removeAt parent.keys (childIdx - 1) (parent.num - childIdx)
    let pc := removeAt pc0 childIdx (parent.num - childIdx)
    let parent' : IntView := ⟨parent.num - 1, pk, pc⟩
    .ok (left', parent')

/-! ## Merge the right sibling into the child, internal case
(`bptree_rebalance_up`, bptree.h lines 631-667)

Both overflow guards run before any write and end the process.  Otherwise
the parent separator at `child_idx` is folded in, the right sibling's
keys/children are appended (the source copies `num_keys + 1` keys, one
more than are live), `child->num_keys = combined_keys`, the right sibling
is freed, `children[child_idx]` is nulled (as in the source), and the
parent drops separator `child_idx` and child slot `child_idx + 1`. -/

def mergeRightInternal (maxKeys : Nat) (child rightSib : IntView) (parent : IntView)
    (childIdx : Nat) : MergeRes (IntView × IntView) :=
  let combinedKeys := child.num + 1 + rightSib.num
  let combinedChildren := child.num + 1 + rightSib.num + 1
  if combinedKeys > maxKeys then .fatalAbort
  else if combinedChildren > maxKeys + 1 then .fatalAbort
  else
    let ck0 := upd child.keys child.num (parent.keys childIdx)
    let ck := copyInto ck0 (child.num + 1) rightSib.keys (rightSib.num + 1)
    let cc := copyInto child.child (child.num + 1) rightSib.child (rightSib.num + 1)
    let child' : IntView := ⟨combinedKeys, ck, cc⟩
    let pc0 := upd parent.child childIdx none
    let pk := removeAt parent.keys childIdx (parent.num - childIdx - 1)
    let pc := removeAt pc0 (childIdx + 1) (parent.num - childIdx - 1)
    let parent' : IntView := ⟨parent.num - 1, pk, pc⟩
    .ok (child', parent')

/-! Projections used to state concrete evaluations of merge results. -/

def iResLeft (r : MergeRes (IntView × IntView)) : Option IntView :=
  match r with
  | .ok (l, _) => some l
  | _ => none

def iResParent (r : MergeRes (IntView × IntView)) : Option IntView :=
  match r with
  | .ok (_, p) => some p
  | _ => none

def iNumOf (o : Option IntView) : Nat :=
  match o with
  | some n => n.num
  | none => 0

def iKeyOf (o : Option IntView) (i : Nat) : Int :=
  match o with
  | some n => n.keys i
  | none => 0

def iChildOf (o : Option IntView) (i : Nat) : Option Nat :=
  match o with
  | some n => n.child i
  | none => none

/-! ## Node layout (`bptree_keys_area_size`, bptree.h lines 143-150, and
the accessors `bptree_node_values` / `bptree_node_children`, lines
158-167)

The function is parametric in the byte sizes of the key type, the value
type and a node pointer (all fixed by the build configuration):

```
const size_t keys_size = (size_t)(max_keys + 1) * sizeof(bptree_key_t);
const size_t req_align = (sizeof(bptree_value_t) > sizeof(bptree_node*)
                          ? sizeof(bptree_value_t) : sizeof(bptree_node*));
const size_t pad = (req_align - (keys_size % req_align)) % req_align;
return keys_size + pad;
```
-/

def bptree_keys_area_size (szKey szVal szPtr maxKeys : Nat) : Nat :=
  let keysSize := (maxKeys + 1) * szKey
  let reqAlign := max szVal szPtr
  let pad := (reqAlign - keysSize % reqAlign) % reqAlign
  keysSize + pad

/-- Offset of the value region inside `node->data`, as computed by
`bptree_node_values` (bptree.h lines 158-161): it is
`bptree_keys_area_size(max_keys)`. -/
def bptree_node_values_offset (szKey szVal szPtr maxKeys : Nat) : Nat :=
  bptree_keys_area_size szKey szVal szPtr maxKeys

/-- Offset of the child-pointer region inside `node->data`, as computed by
`bptree_node_children` (bptree.h lines 164-167): it is
`bptree_keys_area_size(max_keys)`. -/
def bptree_node_children_offset (szKey szVal szPtr maxKeys : Nat) : Nat :=
  bptree_keys_area_size szKey szVal szPtr maxKeys

/-! ## Allocation-size rounding (`bptree_node_alloc`, bptree.h lines
379-391)

`size = (size + max_align - 1) & ~(max_align - 1);` on `size_t`
(64-bit) operands.  On `size_t`, `~(a - 1) = 2^64 - a` for `a ≥ 1`, and
the sum wraps modulo `2^64`. -/

def alignUpC (size align : Nat) : Nat :=
  ((size + align - 1) % 2 ^ 64) &&& (2 ^ 64 - align)

/-! ## Node allocation (`bptree_node_alloc`, bptree.h lines 371-400)

The environment's allocator outcome is an input (`allocOk`); on success
the header fields are initialized, on failure the function issues a
diagnostic through `bptree_debug_print(tree->enable_debug, ...)` (which
prints only when the debug flag is set) and returns NULL.  The log
records each debug call as the pair (flag passed, message). -/

structure NodeRec where
  is_leaf : Bool
  num_keys : Nat
  next : Option Nat
deriving DecidableEq

def bptree_node_alloc (enableDebug isLeaf allocOk : Bool) :
    Option NodeRec × List (Bool × String) :=
  if allocOk then
    (some ⟨isLeaf, 0, none⟩, [])
  else
    (none, [(enableDebug, "Node allocation failed")])

/-! ## Whole-node trees

For the recursive routines (`bptree_check_invariants_node`,
`bptree_free_node`, `bptree_find_smallest_key`,
`bptree_find_largest_key`) a node is a tree term: `null` is a NULL node
pointer, a leaf carries its key and value arrays (as lists of the live
`num_keys` entries, in storage order), an internal node carries its key
list and its child-pointer list (entries `0 .. num_keys` in storage
order).  The `int num_keys` counter of the C struct is the list length
(never negative on the paths modelled). -/

inductive BNode where
  | null : BNode
  | leaf (keys vals : List Int) : BNode
  | internal (keys : List Int) (children : List BNode) : BNode

def numKeys : BNode → Nat
  | .null => 0
  | .leaf keys _ => keys.length
  | .internal keys _ => keys.length

def isLeafN : BNode → Bool
  | .leaf _ _ => true
  | _ => false

def isNull : BNode → Bool
  | .null => true
  | _ => false

/-- Fields of the tree handle read by the checker (`struct bptree`,
bptree.h lines 89-97); the comparator is the built-in numeric one. -/
structure Ctx where
  maxKeys : Nat
  minLeafKeys : Nat
  minInternalKeys : Nat
  count : Nat

theorem sizeOf_getD_lt (l : List BNode) (i : Nat) :
    sizeOf (l.getD i BNode.null) < 1 + sizeOf l := by
  induction l generalizing i with
  | nil => simp [List.getD]
  | cons c t ih =>
    cases i with
    | zero =>
      simp only [List.getD_cons_zero, List.cons.sizeOf_spec]
      omega
    | succ j =>
      have h := ih j
      simp only [List.getD_cons_succ, List.cons.sizeOf_spec]
      omega

/-- `bptree_find_smallest_key` (bptree.h lines 186-195): walk down the
leftmost child chain, then return the leaf's first key.  The `0` results
stand for states where the C code's `assert`s fire (NULL node or empty
leaf). -/
def bptree_find_smallest_key : BNode → Int
  | .null => 0
  | .leaf keys _ => keys.headD 0
  | .internal _ children =>
    match children with
    | [] => 0
    | c :: _ => bptree_find_smallest_key c

mutual

/-- `bptree_find_largest_key` (bptree.h lines 197-206): walk down the
rightmost child chain (`children[num_keys]`), then return the leaf's last
key. -/
def bptree_find_largest_key : BNode → Int
  | .null => 0
  | .leaf keys _ => keys.getLastD 0
  | .internal keys children => largestChild children keys.length

/-- Positional access `children[n]` followed by the recursive descent of
`bptree_find_largest_key`; an exhausted list models a garbage slot
(`assert` territory in C), folded to `0` like a NULL node. -/
def largestChild : List BNode → Nat → Int
  | [], _ => 0
  | c :: _, 0 => bptree_find_largest_key c
  | _ :: cs, n + 1 => largestChild cs n

end

theorem largestChild_getD (cs : List BNode) (n : Nat) :
    largestChild cs n = bptree_find_largest_key (cs.getD n BNode.null) := by
  induction cs generalizing n with
  | nil => cases n <;> simp [largestChild, List.getD, bptree_find_largest_key]
  | cons c t ih =>
    cases n with
    | zero => simp [largestChild, List.getD_cons_zero]
    | succ m => simp [largestChild, List.getD_cons_succ, ih]

/-- The sorted-keys loop (bptree.h lines 247-252): fails when some
adjacent pair has `compare(&keys[i-1], &keys[i]) >= 0`, i.e. succeeds iff
keys strictly ascend. -/
def keysSorted : List Int → Bool
  | [] => true
  | [_] => true
  | a :: b :: rest => decide (a < b) && keysSorted (b :: rest)

/-- Leaf occupancy checks (bptree.h lines 261-274), in source order:
non-root range `[min_leaf_keys, max_keys]`; root leaf above `max_keys` in
a non-empty tree; root leaf with keys in an empty tree. -/
def leafOccOk (ctx : Ctx) (n : Nat) (isRoot : Bool) : Bool :=
  if ¬ isRoot = true ∧ (n < ctx.minLeafKeys ∨ n > ctx.maxKeys) then false
  else if isRoot = true ∧ n > ctx.maxKeys ∧ ctx.count > 0 then false
  else if isRoot = true ∧ ctx.count = 0 ∧ n ≠ 0 then false
  else true

/-- Internal-node occupancy checks (bptree.h lines 280-293), in source
order: non-root range `[min_internal_keys, max_keys]`; internal root with
no key in a non-empty tree; internal root above `max_keys`. -/
def internalOccOk (ctx : Ctx) (n : Nat) (isRoot : Bool) : Bool :=
  if ¬ isRoot = true ∧ (n < ctx.minInternalKeys ∨ n > ctx.maxKeys) then false
  else if isRoot = true ∧ ctx.count > 0 ∧ n < 1 then false
  else if isRoot = true ∧ n > ctx.maxKeys then false
  else true

mutual

/-- `bptree_check_invariants_node` (bptree.h lines 241-354).  The
`int* leaf_depth` in/out parameter is modelled by threading its value
through the result; `is_root` (`tree->root == node`) is passed `false` on
every recursive call, matching pointer comparison on any acyclic tree.
Source order is preserved: NULL check, sorted-keys loop, then the
leaf/internal branch; in the internal branch `children[0]` is checked
(NULL check, upper-bound check against `keys[0]` guarded by
`num_keys > 0 &&(children[0]->num_keys > 0 || !children[0]->is_leaf)`,
recursion), then the loop over `children[1..num_keys]`. -/
def bptree_check_invariants_node (ctx : Ctx) (node : BNode) (isRoot : Bool)
    (depth : Int) (leafDepth : Int) : Bool × Int :=
  match node with
  | .null => (false, leafDepth)
  | .leaf keys _ =>
    if keysSorted keys = false then (false, leafDepth)
    else if leafDepth = -1 then (leafOccOk ctx keys.length isRoot, depth)
    else if depth ≠ leafDepth then (false, leafDepth)
    else (leafOccOk ctx keys.length isRoot, leafDepth)
  | .internal keys children =>
    if keysSorted keys = false then (false, leafDepth)
    else if internalOccOk ctx keys.length isRoot = false then (false, leafDepth)
    else
      match children with
      | [] => (false, leafDepth)
      | c0 :: rest =>
        if isNull c0 then (false, leafDepth)
        else if 0 < keys.length ∧ (0 < numKeys c0 ∨ isLeafN c0 = false)
            ∧ keys.headD 0 ≤ bptree_find_largest_key c0 then (false, leafDepth)
        else
          let r0 := bptree_check_invariants_node ctx c0 false (depth + 1) leafDepth
          if r0.1 = false then (false, r0.2)
          else checkChildrenFrom ctx keys rest 1 (depth + 1) r0.2

/-- The loop `for (int i = 1; i <= node->num_keys; i++)` of
`bptree_check_invariants_node` (bptree.h lines 316-343), entered with
`i = 1` and the children sub-list starting at slot 1.  An exhausted
sub-list while `i <= num_keys` models the C code reading a garbage child
slot, folded to failure. -/
def checkChildrenFrom (ctx : Ctx) (keys : List Int) (cs : List BNode) (i : Nat)
    (depth : Int) (leafDepth : Int) : Bool × Int :=
  if i > keys.length then (true, leafDepth)
  else
    match cs with
    | [] => (false, leafDepth)
    | c :: cs' =>
      if isNull c then (false, leafDepth)
      else if 0 < numKeys c ∨ isLeafN c = false then
        if keys.getD (i - 1) 0 ≠ bptree_find_smallest_key c then (false, leafDepth)
        else if i < keys.length ∧ keys.getD i 0 ≤ bptree_find_largest_key c then
          (false, leafDepth)
        else
          let r := bptree_check_invariants_node ctx c false depth leafDepth
          if r.1 = false then (false, r.2)
          else checkChildrenFrom ctx keys cs' (i + 1) depth r.2
      else if isLeafN c = true ∧ numKeys c = 0 ∧ 0 < ctx.count then (false, leafDepth)
      else
        let r := bptree_check_invariants_node ctx c false depth leafDepth
        if r.1 = false then (false, r.2)
        else checkChildrenFrom ctx keys cs' (i + 1) depth r.2

end

/-- Sequential recursive validation of a list of (non-root) children,
threading the leaf-depth cell: exactly the recursive calls the checker
performs, without the per-child key-bound tests.  Used to state when the
checker accepts an internal node. -/
def runChildren (ctx : Ctx) (depth : Int) : List BNode → Int → Bool × Int
  | [], leafDepth => (true, leafDepth)
  | c :: cs, leafDepth =>
    let r := bptree_check_invariants_node ctx c false depth leafDepth
    if r.1 = false then (false, r.2)
    else runChildren ctx depth cs r.2

mutual

/-- `bptree_free_node` (bptree.h lines 403-412), observed through the
sequence of `free(...)` calls it performs: NULL is a no-op; a leaf
releases only itself; an internal node first recurses into children
`0 .. num_keys` in order, then releases itself. -/
def bptree_free_node : BNode → List BNode
  | .null => []
  | .leaf keys vals => [.leaf keys vals]
  | .internal keys children =>
    freeChildren children (keys.length + 1) ++ [.internal keys children]

/-- The loop `for (int i = 0; i <= node->num_keys; i++) free(children[i])`
of `bptree_free_node`, over the first `n = num_keys + 1` child slots. -/
def freeChildren : List BNode → Nat → List BNode
  | _, 0 => []
  | [], _ + 1 => []
  | c :: cs, n + 1 => bptree_free_node c ++ freeChildren cs n

end

/-! ## Arithmetic helpers for the layout claims -/

theorem pad_formula (a s : Nat) (ha : 0 < a) :
    s + (a - s % a) % a = a * ((s + a - 1) / a) := by
  rcases Nat.eq_zero_or_pos (s % a) with h | h
  · obtain ⟨q, hq⟩ := Nat.dvd_of_mod_eq_zero h
    subst hq
    rw [Nat.mul_mod_right, Nat.sub_zero, Nat.mod_self]
    have h1 : a * q + a - 1 = a * q + (a - 1) := by omega
    rw [h1, Nat.mul_add_div ha, Nat.div_eq_of_lt (by omega : a - 1 < a)]
    simp
  · have hqr := Nat.div_add_mod s a
    have hr : s % a < a := Nat.mod_lt _ ha
    have h2 : (a - s % a) % a = a - s % a := Nat.mod_eq_of_lt (by omega)
    rw [h2]
    have h3 : s + a - 1 = a * (s / a + 1) + (s % a - 1) := by
      rw [Nat.mul_succ]
      omega
    rw [h3, Nat.mul_add_div ha, Nat.div_eq_of_lt (by omega : s % a - 1 < a)]
    rw [Nat.add_zero, Nat.mul_succ]
    omega

theorem leastMul_spec (a s : Nat) (ha : 0 < a) :
    a * ((s + a - 1) / a) % a = 0 ∧ s ≤ a * ((s + a - 1) / a) ∧
      ∀ m, m % a = 0 → s ≤ m → a * ((s + a - 1) / a) ≤ m := by
  refine ⟨Nat.mul_mod_right _ _, ?_, ?_⟩
  · have h := pad_formula a s ha
    omega
  · intro m hm hsm
    obtain ⟨t, ht⟩ := Nat.dvd_of_mod_eq_zero hm
    subst ht
    have h1 : (s + a - 1) / a ≤ (a * t + (a - 1)) / a := by
      apply Nat.div_le_div_right
      omega
    rw [Nat.mul_add_div ha, Nat.div_eq_of_lt (by omega : a - 1 < a), Nat.add_zero] at h1
    exact Nat.mul_le_mul_left a h1

theorem keys_area_eq (szKey szVal szPtr maxKeys : Nat) (h : 0 < max szVal szPtr) :
    bptree_keys_area_size szKey szVal szPtr maxKeys
      = max szVal szPtr
        * (((maxKeys + 1) * szKey + max szVal szPtr - 1) / max szVal szPtr) := by
  unfold bptree_keys_area_size
  exact pad_formula _ _ h

/-- For `x < 2^w` and `k ≤ w`, masking with `2^w - 2^k` (that is, with the
`size_t` value of `~(2^k - 1)`) clears the low `k` bits:
`x &&& (2^w - 2^k) = 2^k * (x / 2^k)`. -/
theorem land_twoPow_mask {w k x : Nat} (hk : k ≤ w) (hx : x < 2 ^ w) :
    x &&& (2 ^ w - 2 ^ k) = 2 ^ k * (x / 2 ^ k) := by
  have hmask : 2 ^ w - 2 ^ k = (2 ^ (w - k) - 1) <<< k := by
    rw [Nat.shiftLeft_eq, Nat.sub_mul, Nat.one_mul, ← Nat.pow_add]
    congr 2
    omega
  have hres : 2 ^ k * (x / 2 ^ k) = (x >>> k) <<< k := by
    rw [Nat.shiftRight_eq_div_pow, Nat.shiftLeft_eq, Nat.mul_comm]
  apply Nat.eq_of_testBit_eq
  intro i
  rw [Nat.testBit_land, hmask, hres, Nat.testBit_shiftLeft, Nat.testBit_shiftLeft,
    Nat.testBit_shiftRight, Nat.testBit_two_pow_sub_one]
  by_cases hik : k ≤ i
  · have hke : k + (i - k) = i := by omega
    rw [hke]
    by_cases hiw : i < w
    · have h1 : (decide (i ≥ k) : Bool) = true := by simp [ge_iff_le, hik]
      have h2 : (decide (i - k < w - k) : Bool) = true := by
        simp only [decide_eq_true_eq]
        omega
      rw [h1, h2]
      simp
    · have hxi : x.testBit i = false := by
        apply Nat.testBit_lt_two_pow
        calc x < 2 ^ w := hx
          _ ≤ 2 ^ i := Nat.pow_le_pow_right (by omega) (by omega)
      rw [hxi]
      simp
  · have h1 : (decide (i ≥ k) : Bool) = false := by simp [ge_iff_le, hik]
    rw [h1]
    simp

theorem alignUpC_eq (k size : Nat) (hk : k ≤ 64) (hov : size + 2 ^ k - 1 < 2 ^ 64) :
    alignUpC size (2 ^ k) = 2 ^ k * ((size + 2 ^ k - 1) / 2 ^ k) := by
  unfold alignUpC
  rw [Nat.mod_eq_of_lt hov]
  exact land_twoPow_mask hk hov

mutual

/-- Number of non-NULL nodes in a tree, counting, below an internal node,
only the child slots `0 .. num_keys` the code traverses. -/
def countNodes : BNode → Nat
  | .null => 0
  | .leaf _ _ => 1
  | .internal keys children => 1 + countChildrenNodes children (keys.length + 1)

/-- Sum of `countNodes` over the first `n` child slots. -/
def countChildrenNodes : List BNode → Nat → Nat
  | _, 0 => 0
  | [], _ + 1 => 0
  | c :: cs, n + 1 => countNodes c + countChildrenNodes cs n

end

mutual

theorem free_node_length : ∀ t : BNode, (bptree_free_node t).length = countNodes t
  | .null => by simp [bptree_free_node, countNodes]
  | .leaf k v => by simp [bptree_free_node, countNodes]
  | .internal k c => by
    rw [bptree_free_node, countNodes, List.length_append,
      free_children_length c (k.length + 1)]
    exact Nat.add_comm _ 1

theorem free_children_length :
    ∀ (cs : List BNode) (n : Nat), (freeChildren cs n).length = countChildrenNodes cs n
  | _, 0 => by rw [freeChildren, countChildrenNodes]; rfl
  | [], _ + 1 => by rw [freeChildren, countChildrenNodes]; rfl
  | c :: cs, n + 1 => by
    rw [freeChildren, countChildrenNodes, List.length_append,
      free_node_length c, free_children_length cs n]

end

/-! ## Facts about the invariant checker -/

theorem numKeys_pos_not_null {c : BNode} (h : 0 < numKeys c) : isNull c = false := by
  cases c with
  | null => simp [numKeys] at h
  | leaf k v => rfl
  | internal k cs => rfl

/-- Positional helper: reading slot `j ≥ 1` of a child array steps over
the head. -/
theorem getD_cons_of_pos {c0 : BNode} {rest : List BNode} {j : Nat} (h : 1 ≤ j) :
    (c0 :: rest).getD j BNode.null = rest.getD (j - 1) BNode.null := by
  obtain ⟨m, rfl⟩ : ∃ m, j = m + 1 := ⟨j - 1, by omega⟩
  simp [List.getD_cons_succ]

/-- Destructor for one accepted step of the child loop: if the loop
starting at slot `i ≤ num_keys` accepts `c :: cs'`, then `c` is non-NULL,
its recursive check and the rest of the loop accept, and (when the
key-bound tests were enabled for `c`) the separator equality and upper
bound hold at position `i`. -/
theorem ccf_cons_true (ctx : Ctx) (K : List Int) (c : BNode) (cs' : List BNode)
    (i : Nat) (d ld : Int)
    (h : (checkChildrenFrom ctx K (c :: cs') i d ld).1 = true)
    (hi : ¬ i > K.length) :
    isNull c = false ∧
    (bptree_check_invariants_node ctx c false d ld).1 = true ∧
    (checkChildrenFrom ctx K cs' (i + 1) d
      (bptree_check_invariants_node ctx c false d ld).2).1 = true ∧
    ((0 < numKeys c ∨ isLeafN c = false) →
      K.getD (i - 1) 0 = bptree_find_smallest_key c ∧
      (i < K.length → bptree_find_largest_key c < K.getD i 0)) := by
  rw [checkChildrenFrom, if_neg hi] at h
  by_cases hnc : isNull c
  · rw [if_pos hnc] at h
    simp at h
  rw [if_neg hnc] at h
  have hnc' : isNull c = false := by revert hnc; cases isNull c <;> simp
  by_cases hgd : 0 < numKeys c ∨ isLeafN c = false
  · rw [if_pos hgd] at h
    by_cases h1 : K.getD (i - 1) 0 ≠ bptree_find_smallest_key c
    · rw [if_pos h1] at h
      simp at h
    rw [if_neg h1] at h
    by_cases h2 : i < K.length ∧ K.getD i 0 ≤ bptree_find_largest_key c
    · rw [if_pos h2] at h
      simp at h
    rw [if_neg h2] at h
    by_cases h5 : (bptree_check_invariants_node ctx c false d ld).1 = false
    · rw [if_pos h5] at h
      simp at h
    rw [if_neg h5] at h
    have h5' : (bptree_check_invariants_node ctx c false d ld).1 = true := by
      revert h5; cases (bptree_check_invariants_node ctx c false d ld).1 <;> simp
    refine ⟨hnc', h5', h, ?_⟩
    intro _
    refine ⟨not_not.mp h1, ?_⟩
    intro hlt
    by_contra hle
    exact h2 ⟨hlt, le_of_not_lt hle⟩
  · rw [if_neg hgd] at h
    by_cases h3 : isLeafN c = true ∧ numKeys c = 0 ∧ 0 < ctx.count
    · rw [if_pos h3] at h
      simp at h
    rw [if_neg h3] at h
    by_cases h5 : (bptree_check_invariants_node ctx c false d ld).1 = false
    · rw [if_pos h5] at h
      simp at h
    rw [if_neg h5] at h
    have h5' : (bptree_check_invariants_node ctx c false d ld).1 = true := by
      revert h5; cases (bptree_check_invariants_node ctx c false d ld).1 <;> simp
    exact ⟨hnc', h5', h, fun hg => absurd hg hgd⟩

/-- If the child loop accepts, every slot it visited is in range and
non-NULL. -/
theorem ccf_true_nonnull (ctx : Ctx) (K : List Int) :
    ∀ (cs : List BNode) (i : Nat) (d ld : Int),
      (checkChildrenFrom ctx K cs i d ld).1 = true →
      ∀ j, i ≤ j → j ≤ K.length →
        j - i < cs.length ∧ isNull (cs.getD (j - i) BNode.null) = false := by
  intro cs
  induction cs with
  | nil =>
    intro i d ld h j hij hjK
    rw [checkChildrenFrom] at h
    by_cases hi : i > K.length
    · omega
    · rw [if_neg hi] at h
      simp at h
  | cons c cs' ih =>
    intro i d ld h j hij hjK
    by_cases hi : i > K.length
    · omega
    have hd := ccf_cons_true ctx K c cs' i d ld h hi
    rcases Nat.eq_or_lt_of_le hij with rfl | hlt
    · refine ⟨by simp, ?_⟩
      simpa [List.getD] using hd.1
    · have hrec := ih (i + 1) d (bptree_check_invariants_node ctx c false d ld).2
        hd.2.2.1 j hlt hjK
      have hji : j - i = (j - (i + 1)) + 1 := by omega
      rw [hji]
      refine ⟨?_, ?_⟩
      · simp only [List.length_cons]
        omega
      · rw [List.getD_cons_succ]
        exact hrec.2

/-- If the child loop accepts and every child it visits is non-empty, the
separator equalities and upper bounds of the loop's tests hold at every
visited position. -/
theorem ccf_true_bounds (ctx : Ctx) (K : List Int) :
    ∀ (cs : List BNode) (i : Nat) (d ld : Int),
      (∀ c ∈ cs, 0 < numKeys c) →
      (checkChildrenFrom ctx K cs i d ld).1 = true →
      ∀ j, i ≤ j → j ≤ K.length →
        K.getD (j - 1) 0 = bptree_find_smallest_key (cs.getD (j - i) BNode.null) ∧
        (j < K.length →
          bptree_find_largest_key (cs.getD (j - i) BNode.null) < K.getD j 0) := by
  intro cs
  induction cs with
  | nil =>
    intro i d ld hne h j hij hjK
    rw [checkChildrenFrom] at h
    by_cases hi : i > K.length
    · omega
    · rw [if_neg hi] at h
      simp at h
  | cons c cs' ih =>
    intro i d ld hne h j hij hjK
    by_cases hi : i > K.length
    · omega
    have hd := ccf_cons_true ctx K c cs' i d ld h hi
    rcases Nat.eq_or_lt_of_le hij with rfl | hlt
    · have hb := hd.2.2.2 (Or.inl (hne c (List.mem_cons_self c cs')))
      simpa [List.getD] using hb
    · have hrec := ih (i + 1) d (bptree_check_invariants_node ctx c false d ld).2
        (fun c' hc' => hne c' (List.mem_cons_of_mem c hc'))
        hd.2.2.1 j hlt hjK
      have hji : j - i = (j - (i + 1)) + 1 := by omega
      rw [hji, List.getD_cons_succ]
      exact hrec

/-- When every visited child is non-empty and every per-position test of
the loop is known to pass, the loop computes exactly the sequential
recursive validation of the children. -/
theorem ccf_eq_run (ctx : Ctx) (K : List Int) (d : Int) :
    ∀ (cs : List BNode) (i : Nat) (ld : Int),
      (∀ c ∈ cs, 0 < numKeys c) →
      i + cs.length = K.length + 1 →
      1 ≤ i →
      (∀ j, i ≤ j → j ≤ K.length →
        K.getD (j - 1) 0 = bptree_find_smallest_key (cs.getD (j - i) BNode.null) ∧
        (j < K.length →
          bptree_find_largest_key (cs.getD (j - i) BNode.null) < K.getD j 0)) →
      checkChildrenFrom ctx K cs i d ld = runChildren ctx d cs ld := by
  intro cs
  induction cs with
  | nil =>
    intro i ld hne hlen hi hb
    rw [checkChildrenFrom, runChildren]
    rw [if_pos (by simp at hlen; omega)]
  | cons c cs' ih =>
    intro i ld hne hlen hi hb
    have hi' : ¬ i > K.length := by
      simp only [List.length_cons] at hlen
      omega
    have hnum : 0 < numKeys c := hne c (List.mem_cons_self c cs')
    have hbc := hb i le_rfl (by simp only [List.length_cons] at hlen; omega)
    rw [Nat.sub_self, List.getD_cons_zero] at hbc
    rw [checkChildrenFrom, runChildren, if_neg hi',
      if_neg (by rw [numKeys_pos_not_null hnum]; exact Bool.false_ne_true),
      if_pos (Or.inl hnum), if_neg (not_not_intro hbc.1),
      if_neg (fun hc => absurd hc.2 (not_le.mpr (hbc.2 hc.1)))]
    by_cases hr : (bptree_check_invariants_node ctx c false d ld).1 = false
    · rw [if_pos hr, if_pos hr]
    · rw [if_neg hr, if_neg hr]
      apply ih (i + 1) _
        (fun c' hc' => hne c' (List.mem_cons_of_mem c hc'))
        (by simp only [List.length_cons] at hlen; omega)
        (by omega)
      intro j hij hjK
      have := hb j (by omega) hjK
      have hji : j - i = (j - (i + 1)) + 1 := by omega
      rw [hji, List.getD_cons_succ] at this
      exact this

/-- Accepted-path unfolding of the checker at an internal node: when the
node-local tests pass, the checker reduces to the recursive check of
`children[0]` followed by the loop over `children[1..num_keys]`. -/
theorem checker_internal_step (ctx : Ctx) (K : List Int) (c0 : BNode)
    (rest : List BNode) (isRoot : Bool) (d ld : Int)
    (hs : keysSorted K = true) (ho : internalOccOk ctx K.length isRoot = true)
    (hn : isNull c0 = false)
    (hg : ¬(0 < K.length ∧ (0 < numKeys c0 ∨ isLeafN c0 = false)
          ∧ K.headD 0 ≤ bptree_find_largest_key c0)) :
    bptree_check_invariants_node ctx (.internal K (c0 :: rest)) isRoot d ld
      = (if (bptree_check_invariants_node ctx c0 false (d + 1) ld).1 = false
         then (false, (bptree_check_invariants_node ctx c0 false (d + 1) ld).2)
         else checkChildrenFrom ctx K rest 1 (d + 1)
           (bptree_check_invariants_node ctx c0 false (d + 1) ld).2) := by
  rw [bptree_check_invariants_node]
  simp only [hs, ho, hn, Bool.true_eq_false, if_false, Bool.false_eq_true, if_neg hg]

/-- If the checker accepts an internal node, every node-local test passed:
the keys are sorted, occupancy holds, `children[0]` exists, is non-NULL,
respects the `keys[0]` upper bound when its tests are enabled, and both
the recursive check of `children[0]` and the loop over the remaining
children accept. -/
theorem checker_internal_true_elim (ctx : Ctx) (K : List Int) (C : List BNode)
    (isRoot : Bool) (d ld : Int)
    (h : (bptree_check_invariants_node ctx (.internal K C) isRoot d ld).1 = true) :
    keysSorted K = true ∧ internalOccOk ctx K.length isRoot = true ∧
    C ≠ [] ∧ isNull (C.getD 0 BNode.null) = false ∧
    ¬(0 < K.length ∧ (0 < numKeys (C.getD 0 BNode.null)
        ∨ isLeafN (C.getD 0 BNode.null) = false)
      ∧ K.headD 0 ≤ bptree_find_largest_key (C.getD 0 BNode.null)) ∧
    (bptree_check_invariants_node ctx (C.getD 0 BNode.null) false (d + 1) ld).1
      = true ∧
    (checkChildrenFrom ctx K C.tail 1 (d + 1)
      (bptree_check_invariants_node ctx (C.getD 0 BNode.null) false (d + 1) ld).2).1
      = true := by
  cases C with
  | nil =>
    rw [bptree_check_invariants_node] at h
    by_cases h1 : keysSorted K = false
    · rw [if_pos h1] at h
      simp at h
    rw [if_neg h1] at h
    by_cases h2 : internalOccOk ctx K.length isRoot = false
    · rw [if_pos h2] at h
      simp at h
    rw [if_neg h2] at h
    simp at h
  | cons c0 rest =>
    rw [bptree_check_invariants_node] at h
    by_cases h1 : keysSorted K = false
    · rw [if_pos h1] at h
      simp at h
    rw [if_neg h1] at h
    have hs : keysSorted K = true := by revert h1; cases keysSorted K <;> simp
    by_cases h2 : internalOccOk ctx K.length isRoot = false
    · rw [if_pos h2] at h
      simp at h
    rw [if_neg h2] at h
    have ho : internalOccOk ctx K.length isRoot = true := by
      revert h2; cases internalOccOk ctx K.length isRoot <;> simp
    by_cases h3 : isNull c0
    · rw [if_pos h3] at h
      simp at h
    rw [if_neg h3] at h
    have h3' : isNull c0 = false := by revert h3; cases isNull c0 <;> simp
    by_cases h4 : 0 < K.length ∧ (0 < numKeys c0 ∨ isLeafN c0 = false)
        ∧ K.headD 0 ≤ bptree_find_largest_key c0
    · rw [if_pos h4] at h
      simp at h
    rw [if_neg h4] at h
    by_cases h5 : (bptree_check_invariants_node ctx c0 false (d + 1) ld).1 = false
    · rw [if_pos h5] at h
      simp at h
    rw [if_neg h5] at h
    have h5' : (bptree_check_invariants_node ctx c0 false (d + 1) ld).1 = true := by
      revert h5
      cases (bptree_check_invariants_node ctx c0 false (d + 1) ld).1 <;> simp
    simp only [List.getD_cons_zero, List.tail_cons]
    exact ⟨hs, ho, by simp, h3', h4, h5', h⟩

/-- The parent/child key-bound violations named by the specification for
an internal node with keys `K[0..n)` and children `C[0..n]`:
`max(C[0]) ≥ K[0]`, or for some `1 ≤ i ≤ n-1` either
`min(C[i]) ≠ K[i-1]` or `max(C[i]) ≥ K[i]`, or `min(C[n]) ≠ K[n-1]`
(`min`/`max` via the code's `bptree_find_smallest_key` /
`bptree_find_largest_key`, keys compared by the built-in numeric
comparator). -/
def boundViolationB (K : List Int) (C : List BNode) : Bool :=
  decide (K.headD 0 ≤ bptree_find_largest_key (C.getD 0 BNode.null)) ||
  ((List.range K.length).any fun i =>
    decide (1 ≤ i) && decide (i ≤ K.length - 1) &&
      (decide (K.getD (i - 1) 0 ≠ bptree_find_smallest_key (C.getD i BNode.null)) ||
       decide (K.getD i 0 ≤ bptree_find_largest_key (C.getD i BNode.null)))) ||
  decide (K.getD (K.length - 1) 0
    ≠ bptree_find_smallest_key (C.getD K.length BNode.null))

/-! ## Concrete node states used for evaluating the rebalancing code -/

/-- Internal left sibling with one key `5` and children `1, 2`. -/
def mlLeft : IntView :=
  ⟨1, fun i => if i = 0 then 5 else 0,
    fun i => if i = 0 then some 1 else if i = 1 then some 2 else none⟩

/-- Underflowing internal child with one key `20` and children `3, 4`. -/
def mlChild : IntView :=
  ⟨1, fun i => if i = 0 then 20 else 0,
    fun i => if i = 0 then some 3 else if i = 1 then some 4 else none⟩

/-- Parent with keys `10, 50` and children `100, 200, 300`; slot 1 is the
underflowing child being merged into slot 0. -/
def mlParent : IntView :=
  ⟨2, fun i => if i = 0 then 10 else if i = 1 then 50 else 0,
    fun i => if i = 0 then some 100 else if i = 1 then some 200
             else if i = 2 then some 300 else none⟩

/-- Underflowing leaf with the single pair `(30, 300)`. -/
def blChild : LeafView :=
  ⟨1, fun i => if i = 0 then 30 else 0, fun i => if i = 0 then 300 else 0, none⟩

/-- Left leaf sibling with pairs `(10, 100)`, `(20, 200)`. -/
def blLeftSib : LeafView :=
  ⟨2, fun i => if i = 0 then 10 else if i = 1 then 20 else 0,
    fun i => if i = 0 then 100 else if i = 1 then 200 else 0, none⟩

/-- Underflowing leaf with the single pair `(10, 100)`. -/
def brChild : LeafView :=
  ⟨1, fun i => if i = 0 then 10 else 0, fun i => if i = 0 then 100 else 0, none⟩

/-- Right leaf sibling with pairs `(20, 200)`, `(30, 300)`. -/
def brRight : LeafView :=
  ⟨2, fun i => if i = 0 then 20 else if i = 1 then 30 else 0,
    fun i => if i = 0 then 200 else if i = 1 then 300 else 0, none⟩

/-- An all-zero parent key array. -/
def zeroKeys : Nat → Int := fun _ => 0

/-- Leaf with two (zero) pairs, used to overflow a `max_keys = 2` merge. -/
def ovLeafTwo : LeafView := ⟨2, fun _ => 0, fun _ => 0, none⟩

/-- Leaf with one (zero) pair. -/
def ovLeafOne : LeafView := ⟨1, fun _ => 0, fun _ => 0, none⟩

/-- Internal node with one key, used to overflow a `max_keys = 2` merge. -/
def ovInt : IntView := ⟨1, fun _ => 0, fun _ => none⟩

/-- Parent used in the overflow evaluations. -/
def ovParent : IntView := ⟨1, fun _ => 0, fun _ => none⟩

/-! ## Claim theorems -/

/-- C1.  Evaluation of the merge-into-left-sibling internal case at a
concrete state (`max_keys = 4`, left sibling holding key `5` and children
`1, 2`, absorbed child holding key `20` and children `3, 4`, parent
separator `10` at index `child_idx - 1 = 0`).  The source executes
`left_sibling->num_keys = combined_children` (bptree.h line 596), so the
surviving node's key count is `4 = (1+1) + (1+1)`, not the
`1 + 1 + 1 = 3` concatenated key count the claim states; the remaining
conjuncts show the key/child concatenation and the parent separator/child
removal behave as the claim describes. -/
theorem C1_merge_left_internal_eval :
    iNumOf (iResLeft (mergeLeftInternal 4 mlLeft mlChild mlParent 1)) = 4 ∧
    iNumOf (iResLeft (mergeLeftInternal 4 mlLeft mlChild mlParent 1))
      ≠ mlLeft.num + 1 + mlChild.num ∧
    iKeyOf (iResLeft (mergeLeftInternal 4 mlLeft mlChild mlParent 1)) 0 = 5 ∧
    iKeyOf (iResLeft (mergeLeftInternal 4 mlLeft mlChild mlParent 1)) 1 = 10 ∧
    iKeyOf (iResLeft (mergeLeftInternal 4 mlLeft mlChild mlParent 1)) 2 = 20 ∧
    iChildOf (iResLeft (mergeLeftInternal 4 mlLeft mlChild mlParent 1)) 0 = some 1 ∧
    iChildOf (iResLeft (mergeLeftInternal 4 mlLeft mlChild mlParent 1)) 1 = some 2 ∧
    iChildOf (iResLeft (mergeLeftInternal 4 mlLeft mlChild mlParent 1)) 2 = some 3 ∧
    iChildOf (iResLeft (mergeLeftInternal 4 mlLeft mlChild mlParent 1)) 3 = some 4 ∧
    iNumOf (iResParent (mergeLeftInternal 4 mlLeft mlChild mlParent 1)) = 1 ∧
    iKeyOf (iResParent (mergeLeftInternal 4 mlLeft mlChild mlParent 1)) 0 = 50 ∧
    iChildOf (iResParent (mergeLeftInternal 4 mlLeft mlChild mlParent 1)) 0 = some 100 ∧
    iChildOf (iResParent (mergeLeftInternal 4 mlLeft mlChild mlParent 1)) 1 = some 300 := by
  decide

/-- C2.  Evaluation of the borrow-from-left-sibling leaf case at a
concrete state (left sibling `(10,100), (20,200)`, underflowing leaf
`(30,300)`).  The source assigns
`child_vals[0] = left_keys[left_sibling->num_keys - 1]` (bptree.h line
456), so value slot 0 of the fixed leaf receives the left sibling's last
KEY `20`, not its last value `200`; keys, counts and the parent separator
behave as the claim states, but keys and values no longer correspond
pairwise. -/
theorem C2_borrow_left_leaf_eval :
    (borrowLeafFromLeft blChild blLeftSib zeroKeys 1).1.vals 0 = 20 ∧
    blLeftSib.vals (blLeftSib.num - 1) = 200 ∧
    (borrowLeafFromLeft blChild blLeftSib zeroKeys 1).1.vals 0
      ≠ blLeftSib.vals (blLeftSib.num - 1) ∧
    (borrowLeafFromLeft blChild blLeftSib zeroKeys 1).1.keys 0 = 20 ∧
    (borrowLeafFromLeft blChild blLeftSib zeroKeys 1).1.keys 1 = 30 ∧
    (borrowLeafFromLeft blChild blLeftSib zeroKeys 1).1.vals 1 = 300 ∧
    (borrowLeafFromLeft blChild blLeftSib zeroKeys 1).1.num = 2 ∧
    (borrowLeafFromLeft blChild blLeftSib zeroKeys 1).2.1.num = 1 ∧
    (borrowLeafFromLeft blChild blLeftSib zeroKeys 1).2.2 0 = 20 := by
  decide

/-- C3.  Evaluation of the borrow-from-right-sibling leaf case at a
concrete state (underflowing leaf `(10,100)`, right sibling
`(20,200), (30,300)`).  The source executes `right_sibling->num_keys++`
(bptree.h line 507), so the donor's key count goes from `2` to `3` instead
of decreasing to `1`, and the sum of the two counters grows from `3` to
`5`: the total number of stored pairs is not preserved as the claim
states. -/
theorem C3_borrow_right_leaf_eval :
    (borrowLeafFromRight brChild brRight zeroKeys 0).2.1.num = brRight.num + 1 ∧
    (borrowLeafFromRight brChild brRight zeroKeys 0).2.1.num ≠ brRight.num - 1 ∧
    (borrowLeafFromRight brChild brRight zeroKeys 0).1.num = brChild.num + 1 ∧
    (borrowLeafFromRight brChild brRight zeroKeys 0).1.num
        + (borrowLeafFromRight brChild brRight zeroKeys 0).2.1.num = 5 ∧
    brChild.num + brRight.num = 3 ∧
    (borrowLeafFromRight brChild brRight zeroKeys 0).2.2 0 = 30 := by
  decide

/-- C4 counterexample.  At a concrete overflowing merge (`max_keys = 2`,
leaf siblings with `2` and `1` keys), `bptree_rebalance_up` takes the
`fprintf(stderr, ...); abort();` path (bptree.h lines 554-557): the
operation is handled by an unrecoverable process abort, not by returning
the recoverable `BPTREE_INTERNAL_ERROR` result code the claim states. -/
theorem C4_counterexample :
    mergeLeftLeaf 2 ovLeafTwo ovLeafOne ovParent 1 = MergeRes.fatalAbort ∧
    mergeLeftLeaf 2 ovLeafTwo ovLeafOne ovParent 1
      ≠ MergeRes.err bptree_status.BPTREE_INTERNAL_ERROR := by
  constructor
  · rfl
  · intro h
    rw [show mergeLeftLeaf 2 ovLeafTwo ovLeafOne ovParent 1 = MergeRes.fatalAbort
      from rfl] at h
    exact MergeRes.noConfusion h

/-- C4 (amended).  Whenever a merge performed during delete rebalancing
would combine more keys (or child references) than the node's allocated
capacity, the condition is detected before any element is written — the
returned outcome carries no modified state — and the operation terminates
the process (`abort`), an unrecoverable fault; it does not return
`BPTREE_INTERNAL_ERROR`. -/
theorem C4_merge_overflow_aborts (maxKeys : Nat) (l c : LeafView)
    (li ci cr rr p : IntView) (childIdx : Nat) :
    (l.num + c.num > maxKeys →
      mergeLeftLeaf maxKeys l c p childIdx = MergeRes.fatalAbort) ∧
    (li.num + 1 + ci.num > maxKeys ∨ (li.num + 1) + (ci.num + 1) > maxKeys + 1 →
      mergeLeftInternal maxKeys li ci p childIdx = MergeRes.fatalAbort) ∧
    (cr.num + 1 + rr.num > maxKeys ∨ cr.num + 1 + rr.num + 1 > maxKeys + 1 →
      mergeRightInternal maxKeys cr rr p childIdx = MergeRes.fatalAbort) := by
  refine ⟨?_, ?_, ?_⟩
  · intro h
    unfold mergeLeftLeaf
    rw [if_pos h]
  · intro h
    have h1 : li.num + 1 + ci.num > maxKeys := by rcases h with h | h <;> omega
    unfold mergeLeftInternal
    rw [if_pos h1]
  · intro h
    have h1 : cr.num + 1 + rr.num > maxKeys := by rcases h with h | h <;> omega
    unfold mergeRightInternal
    rw [if_pos h1]

/-- C4 witness: the amended theorem applied at concrete overflowing
states (`max_keys = 2`). -/
theorem C4_witness :
    mergeLeftLeaf 2 ovLeafTwo ovLeafOne ovParent 1 = MergeRes.fatalAbort ∧
    mergeLeftInternal 2 ovInt ovInt ovParent 1 = MergeRes.fatalAbort ∧
    mergeRightInternal 2 ovInt ovInt ovParent 1 = MergeRes.fatalAbort :=
  ⟨(C4_merge_overflow_aborts 2 ovLeafTwo ovLeafOne ovInt ovInt ovInt ovInt ovParent 1).1
      (by decide),
   (C4_merge_overflow_aborts 2 ovLeafTwo ovLeafOne ovInt ovInt ovInt ovInt ovParent 1).2.1
      (Or.inl (by decide)),
   (C4_merge_overflow_aborts 2 ovLeafTwo ovLeafOne ovInt ovInt ovInt ovInt ovParent 1).2.2
      (Or.inl (by decide))⟩

/-- C6.  For the built key/value configurations (where the byte size of
the value type equals its alignment requirement, and likewise for a node
pointer — true of `void*`/`int64_t` values and of `bptree_node*`), the
offset returned by `bptree_keys_area_size` is a multiple of the larger of
the two alignment requirements, is at least the key-region size
`(max_keys + 1) * sizeof(bptree_key_t)`, and is the least such multiple;
and `bptree_node_values` and `bptree_node_children` compute the same
offset from the same formula. -/
theorem C6_keys_area_alignment (szKey szVal szPtr maxKeys alV alP m : Nat)
    (hv : szVal = alV) (hp : szPtr = alP) (hav : 0 < alV) (hap : 0 < alP)
    (hm : m % max alV alP = 0) (hms : (maxKeys + 1) * szKey ≤ m) :
    bptree_keys_area_size szKey szVal szPtr maxKeys % max alV alP = 0 ∧
    (maxKeys + 1) * szKey ≤ bptree_keys_area_size szKey szVal szPtr maxKeys ∧
    bptree_keys_area_size szKey szVal szPtr maxKeys ≤ m ∧
    bptree_node_values_offset szKey szVal szPtr maxKeys
      = bptree_node_children_offset szKey szVal szPtr maxKeys := by
  rw [hv, hp]
  have hA : 0 < max alV alP := lt_of_lt_of_le hav (le_max_left _ _)
  have heq := keys_area_eq szKey alV alP maxKeys hA
  have hl := leastMul_spec (max alV alP) ((maxKeys + 1) * szKey) hA
  refine ⟨?_, ?_, ?_, rfl⟩
  · rw [heq]
    exact hl.1
  · rw [heq]
    exact hl.2.1
  · rw [heq]
    exact hl.2.2 m hm hms

/-- C6 witness: `max_keys = 3`, 8-byte keys, 8-byte/8-aligned values and
pointers, compared against the multiple `m = 40`. -/
theorem C6_witness :
    bptree_keys_area_size 8 8 8 3 % max 8 8 = 0 ∧
    (3 + 1) * 8 ≤ bptree_keys_area_size 8 8 8 3 ∧
    bptree_keys_area_size 8 8 8 3 ≤ 40 ∧
    bptree_node_values_offset 8 8 8 3 = bptree_node_children_offset 8 8 8 3 :=
  C6_keys_area_alignment 8 8 8 3 8 8 40 rfl rfl (by decide) (by decide)
    (by decide) (by decide)

/-- C7.  Every node successfully returned by `bptree_node_alloc` has
`num_keys = 0`, `next` equal to none and the leaf/internal kind the
caller requested; on allocation failure the result is NULL and a
diagnostic is issued through `bptree_debug_print` (the log of debug calls
is non-empty), so the failure is never silently ignored. -/
theorem C7_node_alloc (enableDebug isLeaf allocOk : Bool) (n : NodeRec) :
    ((bptree_node_alloc enableDebug isLeaf allocOk).1 = some n →
      n.num_keys = 0 ∧ n.next = none ∧ n.is_leaf = isLeaf) ∧
    (allocOk = false →
      (bptree_node_alloc enableDebug isLeaf allocOk).1 = none ∧
      (bptree_node_alloc enableDebug isLeaf allocOk).2 ≠ []) := by
  constructor
  · intro h
    cases allocOk with
    | true =>
      simp only [bptree_node_alloc, if_pos] at h
      cases h
      exact ⟨rfl, rfl, rfl⟩
    | false =>
      simp [bptree_node_alloc] at h
  · intro h
    subst h
    simp [bptree_node_alloc]

/-- C7 witness: a successful leaf allocation and a failed one with the
debug flag set. -/
theorem C7_witness :
    ((NodeRec.mk true 0 none).num_keys = 0 ∧ (NodeRec.mk true 0 none).next = none ∧
      (NodeRec.mk true 0 none).is_leaf = true) ∧
    ((bptree_node_alloc true true false).1 = none ∧
      (bptree_node_alloc true true false).2 ≠ []) :=
  ⟨(C7_node_alloc true true true (NodeRec.mk true 0 none)).1 rfl,
   (C7_node_alloc true true false (NodeRec.mk true 0 none)).2 rfl⟩

/-- C8.  `bptree_free_node` is a no-op on a NULL node (it performs no
release at all); on a leaf it releases exactly that node; on every finite
tree it terminates (it is a total function here) performing exactly one
release per reachable node — the length of its release sequence equals
`countNodes`, which counts each non-NULL node below the child slots
`0 .. num_keys` once — and a non-NULL node is released after all its
children, i.e. last in its own release sequence. -/
theorem C8_free_node (t : BNode) (K V : List Int)
    (ht : isNull t = false) :
    bptree_free_node BNode.null = [] ∧
    bptree_free_node (BNode.leaf K V) = [BNode.leaf K V] ∧
    (bptree_free_node t).length = countNodes t ∧
    (bptree_free_node t).getLast? = some t := by
  refine ⟨rfl, rfl, free_node_length t, ?_⟩
  cases t with
  | null => simp [isNull] at ht
  | leaf k v => rfl
  | internal k c =>
    rw [bptree_free_node]
    exact List.getLast?_concat _

/-- C8 witness: a two-leaf tree under an internal root. -/
theorem C8_witness :
    bptree_free_node BNode.null = [] ∧
    bptree_free_node (BNode.leaf [7] [70]) = [BNode.leaf [7] [70]] ∧
    (bptree_free_node (BNode.internal [20]
        [BNode.leaf [10] [1], BNode.leaf [20] [2]])).length
      = countNodes (BNode.internal [20]
        [BNode.leaf [10] [1], BNode.leaf [20] [2]]) ∧
    (bptree_free_node (BNode.internal [20]
        [BNode.leaf [10] [1], BNode.leaf [20] [2]])).getLast?
      = some (BNode.internal [20] [BNode.leaf [10] [1], BNode.leaf [20] [2]]) :=
  C8_free_node (BNode.internal [20] [BNode.leaf [10] [1], BNode.leaf [20] [2]])
    [7] [70] rfl

/-- C10.  For every power-of-two alignment `2^k` (with `k ≤ 64`) and every
size whose rounding does not wrap the 64-bit `size_t`, the expression
`(size + max_align - 1) & ~(max_align - 1)` computed by
`bptree_node_alloc` equals the least multiple of `2^k` that is at least
`size`; in particular the size passed to `aligned_alloc` is divisible by
the alignment passed, as `aligned_alloc` requires. -/
theorem C10_align_up (k size m : Nat) (hk : k ≤ 64)
    (hov : size + 2 ^ k - 1 < 2 ^ 64)
    (hm : m % 2 ^ k = 0) (hms : size ≤ m) :
    alignUpC size (2 ^ k) % 2 ^ k = 0 ∧
    size ≤ alignUpC size (2 ^ k) ∧
    alignUpC size (2 ^ k) ≤ m ∧
    2 ^ k ∣ alignUpC size (2 ^ k) := by
  have heq := alignUpC_eq k size hk hov
  have hl := leastMul_spec (2 ^ k) size (Nat.pos_pow_of_pos k (by omega))
  refine ⟨?_, ?_, ?_, ?_⟩
  · rw [heq]
    exact hl.1
  · rw [heq]
    exact hl.2.1
  · rw [heq]
    exact hl.2.2 m hm hms
  · rw [heq]
    exact Dvd.intro _ rfl

/-- C10 witness: rounding `size = 76` up to alignment `8 = 2^3`, compared
against the multiple `m = 80`. -/
theorem C10_witness :
    alignUpC 76 (2 ^ 3) % 2 ^ 3 = 0 ∧
    76 ≤ alignUpC 76 (2 ^ 3) ∧
    alignUpC 76 (2 ^ 3) ≤ 80 ∧
    2 ^ 3 ∣ alignUpC 76 (2 ^ 3) :=
  C10_align_up 3 76 80 (by decide) (by norm_num) (by decide) (by decide)

/-- C5.  For every internal node with keys `K[0..n)` (`n ≥ 1`) and
children `C[0..n]` that are all non-empty, the checker returns `false`
whenever one of the parent/child key-bound relationships of the claim is
violated (`max(C[0]) ≥ K[0]`; `min(C[i]) ≠ K[i-1]` or `max(C[i]) ≥ K[i]`
for some `1 ≤ i ≤ n-1`; `min(C[n]) ≠ K[n-1]`); and when no such
relationship is violated and the other checked conditions hold — the keys
are sorted, the occupancy test passes, and the recursive validation of
each child (threading the shared leaf-depth cell) succeeds — it returns
`true`. -/
theorem C5_checker_key_bounds (ctx : Ctx) (K : List Int) (C : List BNode)
    (isRoot : Bool) (d ld ld' : Int)
    (hn : 1 ≤ K.length) (hlen : C.length = K.length + 1)
    (hne : ∀ c ∈ C, 0 < numKeys c) :
    (boundViolationB K C = true →
      (bptree_check_invariants_node ctx (.internal K C) isRoot d ld).1 = false) ∧
    (keysSorted K = true → internalOccOk ctx K.length isRoot = true →
      boundViolationB K C = false →
      runChildren ctx (d + 1) C ld = (true, ld') →
      bptree_check_invariants_node ctx (.internal K C) isRoot d ld = (true, ld')) := by
  constructor
  · intro hviol
    by_contra hres
    have hres' : (bptree_check_invariants_node ctx (.internal K C) isRoot d ld).1
        = true := by
      revert hres
      cases (bptree_check_invariants_node ctx (.internal K C) isRoot d ld).1 <;> simp
    obtain ⟨hs, ho, hCne, hc0nn, hg, hr0, hloop⟩ :=
      checker_internal_true_elim ctx K C isRoot d ld hres'
    cases C with
    | nil => exact hCne rfl
    | cons c0 rest =>
      simp only [List.getD_cons_zero, List.tail_cons] at hc0nn hg hr0 hloop
      have hc0 : 0 < numKeys c0 := hne c0 (List.mem_cons_self c0 rest)
      have hbounds := ccf_true_bounds ctx K rest 1 (d + 1)
        (bptree_check_invariants_node ctx c0 false (d + 1) ld).2
        (fun c' hc' => hne c' (List.mem_cons_of_mem c0 hc')) hloop
      simp only [boundViolationB, Bool.or_eq_true, List.any_eq_true,
        Bool.and_eq_true, decide_eq_true_eq] at hviol
      rcases hviol with (h | ⟨i, hir, ⟨h1i, h2i⟩, hcond⟩) | h
      · rw [List.getD_cons_zero] at h
        exact hg ⟨hn, Or.inl hc0, h⟩
      · have hilt : i < K.length := List.mem_range.mp hir
        have hb := hbounds i h1i (le_of_lt hilt)
        rw [getD_cons_of_pos h1i] at hcond
        rcases hcond with hne' | hle
        · exact hne' hb.1
        · exact absurd hle (not_le.mpr (hb.2 hilt))
      · have hb := hbounds K.length hn le_rfl
        rw [getD_cons_of_pos hn] at h
        exact h hb.1
  · intro hs ho hnv hrun
    have hnv' : ¬ boundViolationB K C = true := by rw [hnv]; simp
    simp only [boundViolationB, Bool.or_eq_true, List.any_eq_true,
      Bool.and_eq_true, decide_eq_true_eq] at hnv'
    push_neg at hnv'
    obtain ⟨⟨hv1, hv2⟩, hv3⟩ := hnv'
    cases C with
    | nil =>
      exfalso
      simp only [List.length_nil] at hlen
      omega
    | cons c0 rest =>
      have hc0 : 0 < numKeys c0 := hne c0 (List.mem_cons_self c0 rest)
      rw [List.getD_cons_zero] at hv1
      have hg : ¬(0 < K.length ∧ (0 < numKeys c0 ∨ isLeafN c0 = false)
          ∧ K.headD 0 ≤ bptree_find_largest_key c0) := by
        intro hc
        exact absurd hc.2.2 (not_le.mpr hv1)
      rw [checker_internal_step ctx K c0 rest isRoot d ld hs ho
        (numKeys_pos_not_null hc0) hg]
      rw [runChildren] at hrun
      by_cases hr : (bptree_check_invariants_node ctx c0 false (d + 1) ld).1 = false
      · rw [if_pos hr] at hrun
        simp at hrun
      · rw [if_neg hr] at hrun
        rw [if_neg hr]
        rw [ccf_eq_run ctx K (d + 1) rest 1
          (bptree_check_invariants_node ctx c0 false (d + 1) ld).2
          (fun c' hc' => hne c' (List.mem_cons_of_mem c0 hc'))
          (by simp only [List.length_cons] at hlen ⊢; omega) le_rfl ?_]
        · exact hrun
        · intro j h1j hjK
          by_cases hjl : j < K.length
          · have hb := hv2 j (List.mem_range.mpr hjl) ⟨h1j, by omega⟩
            rw [getD_cons_of_pos h1j] at hb
            exact ⟨hb.1, fun _ => hb.2⟩
          · have hj : j = K.length := by omega
            subst hj
            rw [getD_cons_of_pos hn] at hv3
            exact ⟨hv3, fun hc => absurd hc hjl⟩

/-- Tree handle used by the checker witnesses:
`max_keys = 4`, `min_leaf_keys = min_internal_keys = 2`, `count = 4`. -/
def ctxW : Ctx := ⟨4, 2, 2, 4⟩

/-- Left leaf of the two-leaf witness tree. -/
def leafWA : BNode := .leaf [10, 11] [1, 2]

/-- Right leaf of the two-leaf witness tree. -/
def leafWB : BNode := .leaf [20, 21] [3, 4]

/-- C5 witness: the checker applied to a valid internal root over two
valid leaves accepts, by the acceptance half of the theorem. -/
theorem C5_witness :
    bptree_check_invariants_node ctxW (.internal [20] [leafWA, leafWB]) true 0 (-1)
      = (true, 1) :=
  (C5_checker_key_bounds ctxW [20] [leafWA, leafWB] true 0 (-1) 1
    (by decide) (by decide) (by decide)).2 (by decide) (by decide) (by decide)
    (by decide)

/-- C9.  `bptree_check_invariants_node` returns `false` on a NULL node
pointer at any depth and with any incoming leaf-depth value (so a tree
whose root reference is NULL never passes validation), and an internal
node whose child slot `j ∈ 0..num_keys` is NULL is reported invalid. -/
theorem C9_null_rejected (ctx : Ctx) (isRoot : Bool) (d ld : Int)
    (K : List Int) (C : List BNode) (j : Nat)
    (hj : j ≤ K.length) (hlen : C.length = K.length + 1)
    (hnull : C.getD j BNode.null = BNode.null) :
    bptree_check_invariants_node ctx BNode.null isRoot d ld = (false, ld) ∧
    (bptree_check_invariants_node ctx (.internal K C) isRoot d ld).1 = false := by
  refine ⟨rfl, ?_⟩
  by_contra hres
  have hres' : (bptree_check_invariants_node ctx (.internal K C) isRoot d ld).1
      = true := by
    revert hres
    cases (bptree_check_invariants_node ctx (.internal K C) isRoot d ld).1 <;> simp
  obtain ⟨hs, ho, hCne, hc0nn, hg, hr0, hloop⟩ :=
    checker_internal_true_elim ctx K C isRoot d ld hres'
  cases C with
  | nil => exact hCne rfl
  | cons c0 rest =>
    simp only [List.getD_cons_zero, List.tail_cons] at hc0nn hloop
    rcases Nat.eq_zero_or_pos j with rfl | hj1
    · rw [List.getD_cons_zero] at hnull
      rw [hnull] at hc0nn
      simp [isNull] at hc0nn
    · have hfacts := ccf_true_nonnull ctx K rest 1 (d + 1)
        (bptree_check_invariants_node ctx c0 false (d + 1) ld).2 hloop j hj1 hj
      rw [getD_cons_of_pos hj1] at hnull
      rw [hnull] at hfacts
      simp [isNull] at hfacts

/-- C9 witness: the theorem applied to a NULL root cell and to an
internal node whose child slot 1 is NULL. -/
theorem C9_witness :
    bptree_check_invariants_node ctxW BNode.null true 0 (-1) = (false, -1) ∧
    (bptree_check_invariants_node ctxW
      (.internal [20] [leafWA, BNode.null]) true 0 (-1)).1 = false :=
  C9_null_rejected ctxW true 0 (-1) [20] [leafWA, BNode.null] 1
    (by decide) (by decide) rfl

end BptreeModel
